import Mathlib

/-!
# Verification of the cart-pendulum stabilization pipeline

Shallow embedding of the cart-pendulum notebooks
(`cart_pendulum_control_Lagrangian_dynamics.ipynb`, Lagrangian and
Hamiltonian variants): the explicit nonlinear dynamics obtained from the
Euler-Lagrange equations, the Jacobian linearization about the inverted
equilibrium, the LQR feedback law, and the closed-loop simulation loop.

State convention (Lagrangian variant): `X = ![x1, v1, x2, v2]` with `x1` the
cart position, `v1` its velocity, `x2` the pendulum angle measured from the
negative y-axis (so `x2 = π` is the inverted, upright position) and `v2` the
angular velocity.  Physical parameters: cart mass `m1`, pendulum mass `m2`,
rod length `l`, signed gravitational acceleration `g` (the notebooks use
`g = -10`).
-/

open Real

namespace CartPendulum

/-- The cart-pendulum state: an element of `ℝ⁴`, indexed as
`0 ↦ x1` (cart position), `1 ↦ v1`, `2 ↦ x2` (angle), `3 ↦ v2`
(for the Hamiltonian variant, indices `1` and `3` carry the conjugate
momenta `p1`, `p2` instead of the velocities). -/
abbrev State := Fin 4 → ℝ

/-- The closed form of the cart acceleration `x1''`, i.e. the first component
of `DEexplicit` produced by solving the two Euler-Lagrange equations
(`sp.solve(DEs, [x1dd, x2dd])`) and then lambdified as `y1dd_function`.
Argument order follows the lambdify signature
`(y1, y1d, y2, y2d, t, u, m1, m2, l, g)`. -/
noncomputable def y1dd_function (y1 y1d y2 y2d t u m1 m2 l g : ℝ) : ℝ :=
  (u + m2 * Real.sin y2 * (l * y2d ^ 2 - g * Real.cos y2)) /
    (m1 + m2 * Real.sin y2 ^ 2)

/-- The closed form of the angular acceleration `x2''` from `DEexplicit`,
lambdified as `y2dd_function`. -/
noncomputable def y2dd_function (y1 y1d y2 y2d t u m1 m2 l g : ℝ) : ℝ :=
  ((m1 + m2) * g * Real.sin y2 -
      Real.cos y2 * (u + m2 * l * y2d ^ 2 * Real.sin y2)) /
    (l * (m1 + m2 * Real.sin y2 ^ 2))

/-- `get_PendulumCartRates(X, t, uf, m1, m2, l, g)`: the dynamics function of
the Lagrangian notebook.  It evaluates the control law `uf` on the supplied
state and returns the state derivative
`[x1d, v1d, x2d, v2d] = [v1, y1dd, v2, y2dd]`. -/
noncomputable def get_PendulumCartRates (X : State) (t : ℝ) (uf : State → ℝ)
    (m1 m2 l g : ℝ) : State :=
  let u := uf X
  ![X 1,
    y1dd_function (X 0) (X 1) (X 2) (X 3) t u m1 m2 l g,
    X 3,
    y2dd_function (X 0) (X 1) (X 2) (X 3) t u m1 m2 l g]

/-- `control_no = lambda x: 0`, the open-loop (unforced) control law. -/
def control_no : State → ℝ := fun _ => 0

/-- The setpoint `xsp = np.array([0, 0, np.pi, 0])` used by the closed-loop
controller: cart at the origin at rest with the pendulum inverted. -/
noncomputable def xsp : State := ![0, 0, Real.pi, 0]

/-- `control_law = lambda x: -(K_np @ (x - xsp))[0]`: linear state feedback
around the setpoint, using the 1×4 LQR gain row matrix `K`. -/
noncomputable def control_law (K : Matrix (Fin 1) (Fin 4) ℝ) (x : State) : ℝ :=
  -(K.mulVec (x - xsp) 0)

/-! ## Fidelity of the solved accelerations

The notebook obtains `DEexplicit` by `sp.solve` applied to the two
Euler-Lagrange equations `DEs`.  We embed the solved closed forms above and
prove here that they do satisfy the Euler-Lagrange equations, written as
polynomial identities in the state, the accelerations and the control:

* `DEs[0]`: `(m1+m2)·a1 + m2·l·a2·cos x2 − m2·l·v2²·sin x2 − u = 0`
* `DEs[1]`: `m2·l·(a1·cos x2 + l·a2 − g·sin x2) = 0`

(the left-hand sides are `d/dt(∂L/∂ẋᵢ) − ∂L/∂xᵢ − Qᵢ` expanded along a
trajectory with `x1'' = a1`, `x2'' = a2`). -/

/-- The solved accelerations satisfy the first Euler-Lagrange equation
(the cart equation, with generalized force `u`). -/
theorem DEexplicit_solves_EL1 (x2 v2 u m1 m2 l g : ℝ) (hm1 : 0 < m1)
    (hm2 : 0 ≤ m2) (hl : l ≠ 0) :
    (m1 + m2) * y1dd_function 0 0 x2 v2 0 u m1 m2 l g +
        m2 * l * y2dd_function 0 0 x2 v2 0 u m1 m2 l g * Real.cos x2 -
        m2 * l * v2 ^ 2 * Real.sin x2 - u = 0 := by
  have hden : m1 + m2 * Real.sin x2 ^ 2 ≠ 0 := by
    have : 0 ≤ m2 * Real.sin x2 ^ 2 := by positivity
    nlinarith
  unfold y1dd_function y2dd_function
  field_simp
  linear_combination (-m2 * l * (m1 + m2 * Real.sin x2 ^ 2) *
      (u + m2 * l * v2 ^ 2 * Real.sin x2)) * Real.sin_sq_add_cos_sq x2

/-- The solved accelerations satisfy the second Euler-Lagrange equation
(the pendulum equation, no generalized force). -/
theorem DEexplicit_solves_EL2 (x2 v2 u m1 m2 l g : ℝ) (hm1 : 0 < m1)
    (hm2 : 0 ≤ m2) (hl : l ≠ 0) :
    m2 * l * (y1dd_function 0 0 x2 v2 0 u m1 m2 l g * Real.cos x2 +
        l * y2dd_function 0 0 x2 v2 0 u m1 m2 l g - g * Real.sin x2) = 0 := by
  have hden : m1 + m2 * Real.sin x2 ^ 2 ≠ 0 := by
    have : 0 ≤ m2 * Real.sin x2 ^ 2 := by positivity
    nlinarith
  unfold y1dd_function y2dd_function
  field_simp
  linear_combination (-m2 ^ 2 * l ^ 2 * g * Real.sin x2 *
      (m1 + m2 * Real.sin x2 ^ 2)) * Real.sin_sq_add_cos_sq x2

/-! ## The closed-loop simulator

The notebooks integrate with `scipy.integrate.odeint`, whose implementation
is external to the repository.  Following §4.3 of the spec we model the
integrator as a deterministic fixed-step explicit scheme. -/

/-- Modelled from the spec: the integration scheme of `odeint` is not part of
the repository; the spec prescribes "any fixed-step explicit ODE method of at
least 4th-order local accuracy (e.g., classical Runge-Kutta)".  This is one
classical RK4 step of size `dt` at time `t` for the vector field `f`
(the dynamics function, which receives the stage state and stage time). -/
noncomputable def rk4Step (f : State → ℝ → State) (x : State) (t dt : ℝ) :
    State :=
  let k1 := f x t
  let k2 := f (x + (dt / 2) • k1) (t + dt / 2)
  let k3 := f (x + (dt / 2) • k2) (t + dt / 2)
  let k4 := f (x + dt • k3) (t + dt)
  x + (dt / 6) • (k1 + (2 : ℝ) • k2 + (2 : ℝ) • k3 + k4)

/-- The `n`-th sample of the simulation started at `x0` at time `t0` with
fixed step `dt`: `n` RK4 steps of the vector field `f`. -/
noncomputable def sampleAt (f : State → ℝ → State) (x0 : State) (t0 dt : ℝ) :
    ℕ → State
  | 0 => x0
  | n + 1 => rk4Step f (sampleAt f x0 t0 dt n) (t0 + n * dt) dt

/-- Modelled from the spec: `odeint(f, x0, ts)` returns one row per requested
time sample, the first being the initial state; the trajectory over a uniform
grid of `n` samples starting at `t0` with spacing `dt`. -/
noncomputable def odeintModel (f : State → ℝ → State) (x0 : State)
    (t0 dt : ℝ) (n : ℕ) : List State :=
  (List.range n).map (sampleAt f x0 t0 dt)

/-- `np.arange(t0, tn, dt)` in exact arithmetic: the number of samples of the
requested time grid, `⌈(tn - t0)/dt⌉` (taken at 0 when negative). -/
def arangeLen (t0 tn dt : ℚ) : ℕ := (⌈(tn - t0) / dt⌉).toNat

/-- `ts = np.arange(t0, tn, dt)` in exact arithmetic: the uniform time grid
`t0, t0 + dt, t0 + 2·dt, …` with `arangeLen` entries. -/
def arange (t0 tn dt : ℚ) : List ℚ :=
  (List.range (arangeLen t0 tn dt)).map (fun i : ℕ => t0 + (i : ℚ) * dt)

/-- The unforced closed-loop vector field with the notebook parameters
`m1 = m2 = l = 1`, `g = -10`: `get_PendulumCartRates` under `control_no`. -/
noncomputable def unforcedField : State → ℝ → State := fun X t =>
  get_PendulumCartRates X t control_no 1 1 1 (-10)

/-- The upright (inverted) equilibrium state: cart at the origin at rest,
pendulum angle `π`, zero angular velocity. -/
noncomputable def upright : State := ![0, 0, Real.pi, 0]

lemma unforcedField_upright (t : ℝ) : unforcedField upright t = ![0, 0, 0, 0] := by
  funext i
  fin_cases i <;>
    simp [unforcedField, get_PendulumCartRates, control_no, upright,
      y1dd_function, y2dd_function]

lemma upright_vec_zero : (![0, 0, 0, 0] : State) = (0 : State) := by
  funext i; fin_cases i <;> simp

lemma rk4Step_upright (t dt : ℝ) :
    rk4Step unforcedField upright t dt = upright := by
  simp [rk4Step, unforcedField_upright, upright_vec_zero]

lemma sampleAt_upright (t0 dt : ℝ) (n : ℕ) :
    sampleAt unforcedField upright t0 dt n = upright := by
  induction n with
  | zero => rfl
  | succ n ih => rw [sampleAt, ih, rk4Step_upright]

/-! ## Claim C1: the upright state is a fixed point of the unforced system -/

/-- C1: with `u ≡ 0` and parameters `m1 = m2 = l = 1`, `g = -10`, the
dynamics function returns the zero derivative vector at the upright state
`(0, 0, π, 0)`, and the simulated trajectory started exactly there stays at
that equilibrium at every time step. -/
theorem upright_is_fixed_point :
    (∀ t : ℝ, get_PendulumCartRates upright t control_no 1 1 1 (-10) = 0) ∧
      ∀ (t0 dt : ℝ) (n : ℕ),
        odeintModel unforcedField upright t0 dt n = List.replicate n upright := by
  constructor
  · intro t
    rw [show get_PendulumCartRates upright t control_no 1 1 1 (-10) =
        unforcedField upright t from rfl, unforcedField_upright,
      upright_vec_zero]
  · intro t0 dt n
    rw [List.eq_replicate_iff]
    refine ⟨by simp [odeintModel], ?_⟩
    intro b hb
    simp only [odeintModel, List.mem_map, List.mem_range] at hb
    obtain ⟨i, -, rfl⟩ := hb
    exact sampleAt_upright t0 dt i

/-! ## Claim C4: the control laws -/

/-- C4: the closed-loop control law returns exactly the negated inner product
of the gain row with the componentwise difference `x - xsp`, and the
open-loop law returns the constant `0`. -/
theorem control_law_formula (K : Matrix (Fin 1) (Fin 4) ℝ) (x : State) :
    control_law K x = -(∑ i, K 0 i * (x i - xsp i)) ∧ control_no x = 0 := by
  constructor
  · simp [control_law, Matrix.mulVec, Matrix.dotProduct]
  · rfl

/-! ## Claim C7: trajectory length and sample spacing -/

lemma arange_get (t0 tn dt : ℚ) (i : ℕ)
    (h : i < (arange t0 tn dt).length) :
    (arange t0 tn dt).get ⟨i, h⟩ = t0 + i * dt := by
  unfold arange at h ⊢
  rw [List.get_eq_getElem, List.getElem_map, List.getElem_range]

/-- C7: a completed simulation over the grid `np.arange(t0, tn, dt)` with
`dt > 0` produces exactly `⌈(tn - t0)/dt⌉` samples, and consecutive grid
times differ by exactly `dt`. -/
theorem trajectory_length_and_spacing (t0 tn dt : ℚ) (hdt : 0 < dt)
    (f : State → ℝ → State) (x0 : State) :
    (odeintModel f x0 (t0 : ℝ) (dt : ℝ) (arangeLen t0 tn dt)).length =
        (⌈(tn - t0) / dt⌉).toNat ∧
      ∀ i : ℕ, ∀ h : i + 1 < (arange t0 tn dt).length,
        (arange t0 tn dt).get ⟨i + 1, h⟩ -
            (arange t0 tn dt).get ⟨i, Nat.lt_of_succ_lt h⟩ = dt := by
  constructor
  · simp [odeintModel, arangeLen]
  · intro i h
    rw [arange_get, arange_get]
    push_cast
    ring

/-! ## The Linearizer (Lagrangian variant)

The notebook stores the four state-derivative expressions
`Xds = [x1d, x1dd, x2d, x2dd]` and computes
`A_sp[i][j] = diff(Xds[i], Xs[j]).subs(subs_stationary)` and
`B_sp[i] = diff(Xds[i], u).subs(subs_stationary)`, where `subs_stationary`
fixes the angle at `π` and both rates at `0` (the cart position `x1` and the
control `u` stay symbolic). -/

/-- The vector of state-derivative expressions `Xds` of the Lagrangian
notebook, as a function of the state and the (symbolic) control `u`. -/
noncomputable def XdsL (m1 m2 l g : ℝ) (X : State) (u : ℝ) : State :=
  ![X 1,
    y1dd_function (X 0) (X 1) (X 2) (X 3) 0 u m1 m2 l g,
    X 3,
    y2dd_function (X 0) (X 1) (X 2) (X 3) 0 u m1 m2 l g]

/-- The dynamics function is exactly `Xds` evaluated with the control law
applied to the current state. -/
lemma get_PendulumCartRates_eq_XdsL (X : State) (t : ℝ) (uf : State → ℝ)
    (m1 m2 l g : ℝ) :
    get_PendulumCartRates X t uf m1 m2 l g = XdsL m1 m2 l g X (uf X) := rfl

/-- The stationary (linearization) point of the Lagrangian notebook:
angle `π`, both rates `0`; the cart position stays free. -/
noncomputable def eqStateL (x1₀ : ℝ) : State := ![x1₀, 0, Real.pi, 0]

@[simp] lemma eqStateL_0 (x1₀ : ℝ) : eqStateL x1₀ 0 = x1₀ := rfl
@[simp] lemma eqStateL_1 (x1₀ : ℝ) : eqStateL x1₀ 1 = 0 := rfl
@[simp] lemma eqStateL_2 (x1₀ : ℝ) : eqStateL x1₀ 2 = Real.pi := rfl
@[simp] lemma eqStateL_3 (x1₀ : ℝ) : eqStateL x1₀ 3 = 0 := rfl

/-- `A_sp` of the Lagrangian notebook: entry `(i, j)` is the partial
derivative of the `i`-th state-derivative expression with respect to the
`j`-th state variable, evaluated at the stationary point (angle `π`, rates
`0`, cart position `x1₀` and control `u₀` left free, exactly as in
`subs_stationary`). -/
noncomputable def A_spL (m1 m2 l g x1₀ u₀ : ℝ) : Matrix (Fin 4) (Fin 4) ℝ :=
  Matrix.of fun i j =>
    deriv (fun z => XdsL m1 m2 l g (Function.update (eqStateL x1₀) j z) u₀ i)
      (eqStateL x1₀ j)

/-- `B_sp` of the Lagrangian notebook: entry `i` is the partial derivative of
the `i`-th state-derivative expression with respect to the control `u`,
evaluated at the stationary point. -/
noncomputable def B_spL (m1 m2 l g x1₀ u₀ : ℝ) : Matrix (Fin 4) (Fin 1) ℝ :=
  Matrix.of fun i _ =>
    deriv (fun z => XdsL m1 m2 l g (eqStateL x1₀) z i) u₀

/-- The closed form of the linearized state matrix at the inverted
equilibrium. -/
noncomputable def AmatL (m1 m2 l g : ℝ) : Matrix (Fin 4) (Fin 4) ℝ :=
  !![0, 1, 0, 0;
     0, 0, -m2 * g / m1, 0;
     0, 0, 0, 1;
     0, 0, -(m1 + m2) * g / (l * m1), 0]

/-- The closed form of the linearized input matrix at the inverted
equilibrium. -/
noncomputable def BmatL (m1 m2 l : ℝ) : Matrix (Fin 4) (Fin 1) ℝ :=
  !![0; 1 / m1; 0; 1 / (l * m1)]

lemma updL0 (x1₀ z : ℝ) :
    Function.update (eqStateL x1₀) (0 : Fin 4) z = ![z, 0, Real.pi, 0] := by
  funext k; fin_cases k <;> simp [eqStateL, Function.update]

lemma updL1 (x1₀ z : ℝ) :
    Function.update (eqStateL x1₀) (1 : Fin 4) z = ![x1₀, z, Real.pi, 0] := by
  funext k; fin_cases k <;> simp [eqStateL, Function.update]

lemma updL2 (x1₀ z : ℝ) :
    Function.update (eqStateL x1₀) (2 : Fin 4) z = ![x1₀, 0, z, 0] := by
  funext k; fin_cases k <;> simp [eqStateL, Function.update]

lemma updL3 (x1₀ z : ℝ) :
    Function.update (eqStateL x1₀) (3 : Fin 4) z = ![x1₀, 0, Real.pi, z] := by
  funext k; fin_cases k <;> simp [eqStateL, Function.update]

/-- The angle-derivative of the cart acceleration at the stationary point:
`∂(x1'')/∂x2` evaluated at angle `π`, rates `0`, is `-m2·g/m1` (the free
control `u₀` drops out). -/
lemma derivA12 (m1 m2 l g u₀ : ℝ) (hm1 : m1 ≠ 0) :
    deriv (fun z => y1dd_function 0 0 z 0 0 u₀ m1 m2 l g) Real.pi =
      -m2 * g / m1 := by
  have hden : m1 + m2 * Real.sin Real.pi ^ 2 ≠ 0 := by
    simpa [Real.sin_pi] using hm1
  have hs := Real.hasDerivAt_sin Real.pi
  have hc := Real.hasDerivAt_cos Real.pi
  have hnum :=
    ((hs.const_mul m2).mul ((hc.const_mul g).const_sub (l * (0 : ℝ) ^ 2))).const_add u₀
  have hden2 := ((hs.pow 2).const_mul m2).const_add m1
  have hdiv := hnum.div hden2 hden
  show deriv
      (fun z => (u₀ + m2 * Real.sin z * (l * (0 : ℝ) ^ 2 - g * Real.cos z)) /
        (m1 + m2 * Real.sin z ^ 2)) Real.pi = -m2 * g / m1
  rw [hdiv.deriv]
  field_simp [Real.sin_pi, Real.cos_pi]
  ring

/-- The angle-derivative of the angular acceleration at the stationary
point: `∂(x2'')/∂x2` at angle `π`, rates `0`, is `-(m1+m2)·g/(l·m1)`. -/
lemma derivA32 (m1 m2 l g u₀ : ℝ) (hm1 : m1 ≠ 0) (hl : l ≠ 0) :
    deriv (fun z => y2dd_function 0 0 z 0 0 u₀ m1 m2 l g) Real.pi =
      -(m1 + m2) * g / (l * m1) := by
  have hden : l * (m1 + m2 * Real.sin Real.pi ^ 2) ≠ 0 := by
    simp [Real.sin_pi]
    exact ⟨hl, hm1⟩
  have hs := Real.hasDerivAt_sin Real.pi
  have hc := Real.hasDerivAt_cos Real.pi
  have hnum :=
    (hs.const_mul ((m1 + m2) * g)).sub
      (hc.mul ((hs.const_mul (m2 * l * (0 : ℝ) ^ 2)).const_add u₀))
  have hden2 := (((hs.pow 2).const_mul m2).const_add m1).const_mul l
  have hdiv := hnum.div hden2 hden
  show deriv
      (fun z => ((m1 + m2) * g * Real.sin z -
          Real.cos z * (u₀ + m2 * l * (0 : ℝ) ^ 2 * Real.sin z)) /
        (l * (m1 + m2 * Real.sin z ^ 2))) Real.pi = -(m1 + m2) * g / (l * m1)
  rw [hdiv.deriv]
  field_simp [Real.sin_pi, Real.cos_pi]
  ring

/-- `A_sp` of the Lagrangian notebook evaluates, entrywise, to the closed
form `AmatL`; in particular it is independent of the free cart position and
the free control symbol. -/
theorem A_spL_eq (m1 m2 l g x1₀ u₀ : ℝ) (hm1 : m1 ≠ 0) (hl : l ≠ 0) :
    A_spL m1 m2 l g x1₀ u₀ = AmatL m1 m2 l g := by
  ext i j
  fin_cases i <;> fin_cases j
  · simp [A_spL, AmatL, updL0, XdsL, Matrix.vecHead, Matrix.vecTail]
  · simp [A_spL, AmatL, updL1, XdsL, Matrix.vecHead, Matrix.vecTail]
  · simp [A_spL, AmatL, updL2, XdsL, Matrix.vecHead, Matrix.vecTail]
  · simp [A_spL, AmatL, updL3, XdsL, Matrix.vecHead, Matrix.vecTail]
  · simp [A_spL, AmatL, updL0, XdsL, y1dd_function]
  · simp [A_spL, AmatL, updL1, XdsL, y1dd_function]
  · -- the `(1, 2)` entry: `∂(x1'')/∂x2 = -m2·g/m1`
    have h : (fun z => XdsL m1 m2 l g ![x1₀, 0, z, 0] u₀ 1) =
        fun z => y1dd_function 0 0 z 0 0 u₀ m1 m2 l g := by
      funext z; simp [XdsL, y1dd_function]
    show deriv (fun z =>
        XdsL m1 m2 l g (Function.update (eqStateL x1₀) 2 z) u₀ 1)
        (eqStateL x1₀ 2) = AmatL m1 m2 l g 1 2
    rw [show (eqStateL x1₀ 2) = Real.pi from rfl]
    simp only [updL2, h]
    rw [derivA12 m1 m2 l g u₀ hm1]
    simp [AmatL]
  · simp [A_spL, AmatL, updL3, XdsL, y1dd_function, Real.sin_pi]
  · simp [A_spL, AmatL, updL0, XdsL, Matrix.vecHead, Matrix.vecTail]
  · simp [A_spL, AmatL, updL1, XdsL, Matrix.vecHead, Matrix.vecTail]
  · simp [A_spL, AmatL, updL2, XdsL, Matrix.vecHead, Matrix.vecTail]
  · simp [A_spL, AmatL, updL3, XdsL, Matrix.vecHead, Matrix.vecTail]
  · simp [A_spL, AmatL, updL0, XdsL, y2dd_function, Matrix.vecHead, Matrix.vecTail]
  · simp [A_spL, AmatL, updL1, XdsL, y2dd_function, Matrix.vecHead, Matrix.vecTail]
  · -- the `(3, 2)` entry: `∂(x2'')/∂x2 = -(m1+m2)·g/(l·m1)`
    have h : (fun z => XdsL m1 m2 l g ![x1₀, 0, z, 0] u₀ 3) =
        fun z => y2dd_function 0 0 z 0 0 u₀ m1 m2 l g := by
      funext z; simp [XdsL, y2dd_function]
    show deriv (fun z =>
        XdsL m1 m2 l g (Function.update (eqStateL x1₀) 2 z) u₀ 3)
        (eqStateL x1₀ 2) = AmatL m1 m2 l g 3 2
    rw [show (eqStateL x1₀ 2) = Real.pi from rfl]
    simp only [updL2, h]
    rw [derivA32 m1 m2 l g u₀ hm1 hl]
    simp [AmatL]
  · simp [A_spL, AmatL, updL3, XdsL, y2dd_function, Real.sin_pi]

/-- `B_sp` of the Lagrangian notebook evaluates to the closed form
`BmatL`. -/
theorem B_spL_eq (m1 m2 l g x1₀ u₀ : ℝ) :
    B_spL m1 m2 l g x1₀ u₀ = BmatL m1 m2 l := by
  ext i j
  fin_cases i <;> fin_cases j
  · simp [B_spL, BmatL, XdsL]
  · -- `∂(x1'')/∂u = 1/m1`
    have h : (fun z => XdsL m1 m2 l g (eqStateL x1₀) z 1) =
        fun z => z / m1 := by
      funext z
      simp [XdsL, y1dd_function, eqStateL, Real.sin_pi]
    show deriv (fun z => XdsL m1 m2 l g (eqStateL x1₀) z 1) u₀ =
      BmatL m1 m2 l 1 0
    rw [h, deriv_div_const, deriv_id'']
    simp [BmatL]
  · simp [B_spL, BmatL, XdsL, eqStateL]
  · -- `∂(x2'')/∂u = 1/(l·m1)`
    have h : (fun z => XdsL m1 m2 l g (eqStateL x1₀) z 3) =
        fun z => z / (l * m1) := by
      funext z
      simp [XdsL, y2dd_function, eqStateL, Real.sin_pi, Real.cos_pi]
    show deriv (fun z => XdsL m1 m2 l g (eqStateL x1₀) z 3) u₀ =
      BmatL m1 m2 l 3 0
    rw [h, deriv_div_const, deriv_id'']
    simp [BmatL]

/-! ## Claim C10: translation invariance in the cart position -/

/-- C10: the accelerations returned by the dynamics function do not depend
on the cart position: two states differing only in `x1` yield the same
acceleration components; consequently the linearization is independent of
the free cart position and the first column of `A_sp` vanishes. -/
theorem translation_invariance :
    (∀ (x1 x1' v1 x2 v2 u t m1 m2 l g : ℝ),
        get_PendulumCartRates ![x1, v1, x2, v2] t (fun _ => u) m1 m2 l g 1 =
            get_PendulumCartRates ![x1', v1, x2, v2] t (fun _ => u) m1 m2 l g 1 ∧
          get_PendulumCartRates ![x1, v1, x2, v2] t (fun _ => u) m1 m2 l g 3 =
            get_PendulumCartRates ![x1', v1, x2, v2] t (fun _ => u) m1 m2 l g 3) ∧
      (∀ m1 m2 l g x1₀ x1₀' u₀ : ℝ,
        A_spL m1 m2 l g x1₀ u₀ = A_spL m1 m2 l g x1₀' u₀) ∧
      ∀ (m1 m2 l g x1₀ u₀ : ℝ) (i : Fin 4), A_spL m1 m2 l g x1₀ u₀ i 0 = 0 := by
  refine ⟨fun _ _ _ _ _ _ _ _ _ _ _ => ⟨rfl, rfl⟩, ?_, ?_⟩
  · intro m1 m2 l g x1₀ x1₀' u₀
    ext i j
    fin_cases i <;> fin_cases j <;>
      simp [A_spL, updL0, updL1, updL2, updL3, XdsL,
        y1dd_function, y2dd_function, Matrix.vecHead, Matrix.vecTail]
  · intro m1 m2 l g x1₀ u₀ i
    fin_cases i <;>
      simp [A_spL, updL0, XdsL, y1dd_function, y2dd_function,
        Matrix.vecHead, Matrix.vecTail]

/-! ## The Gain Synthesizer (LQR)

`K_np = ct_matlab.lqr(A_np, B_np, Q, R)[0]` with `Q = np.eye(4)` and
`R = 0.001`.  The Riccati solver itself is external library code, so it is
modelled from the spec (§4.2). -/

/-- The linearized state matrix with the notebook parameters
`m1 = m2 = l = 1`, `g = -10` (`A_np = np.array(A_sp.subs(param_subs))`). -/
noncomputable def A_np : Matrix (Fin 4) (Fin 4) ℝ :=
  !![0, 1, 0, 0;
     0, 0, 10, 0;
     0, 0, 0, 1;
     0, 0, 20, 0]

/-- The linearized input matrix with the notebook parameters
(`B_np = np.array(B_sp.subs(param_subs))`). -/
noncomputable def B_np : Matrix (Fin 4) (Fin 1) ℝ := !![0; 1; 0; 1]

/-- `μ` is an eigenvalue of the complex matrix `M` iff it is a root of the
characteristic polynomial, i.e. `det (μ·I - M) = 0`. -/
def IsEigenvalue (M : Matrix (Fin 4) (Fin 4) ℂ) (μ : ℂ) : Prop :=
  Matrix.det (μ • (1 : Matrix (Fin 4) (Fin 4) ℂ) - M) = 0

/-- `K` stabilizes the linear system `(A, B)`: every eigenvalue of the
closed-loop matrix `A - B·K` has strictly negative real part. -/
def IsStabilizingGain (A : Matrix (Fin 4) (Fin 4) ℝ)
    (B : Matrix (Fin 4) (Fin 1) ℝ) (K : Matrix (Fin 1) (Fin 4) ℝ) : Prop :=
  ∀ μ : ℂ, IsEigenvalue ((A - B * K).map Complex.ofReal) μ → μ.re < 0

/-- The residual of the continuous-time algebraic Riccati equation
`Aᵀ P + P A − P B R⁻¹ Bᵀ P + Q` for scalar `R`. -/
noncomputable def careResidual (A : Matrix (Fin 4) (Fin 4) ℝ)
    (B : Matrix (Fin 4) (Fin 1) ℝ) (Q : Matrix (Fin 4) (Fin 4) ℝ) (R : ℝ)
    (P : Matrix (Fin 4) (Fin 4) ℝ) : Matrix (Fin 4) (Fin 4) ℝ :=
  A.transpose * P + P * A - R⁻¹ • (P * B * B.transpose * P) + Q

/-- Modelled from the spec: the Gain Synthesizer (`ct_matlab.lqr`, an
external library call) "solves the continuous-time algebraic Riccati
equation for the unique stabilizing symmetric positive-semidefinite `P`,
then computes `K = R⁻¹ Bᵀ P`".  `K` satisfies this contract iff it arises
from such a `P`. -/
noncomputable def LQRGainSpec (A : Matrix (Fin 4) (Fin 4) ℝ)
    (B : Matrix (Fin 4) (Fin 1) ℝ) (Q : Matrix (Fin 4) (Fin 4) ℝ) (R : ℝ)
    (K : Matrix (Fin 1) (Fin 4) ℝ) : Prop :=
  ∃ P : Matrix (Fin 4) (Fin 4) ℝ, P.PosSemidef ∧
    careResidual A B Q R P = 0 ∧ K = R⁻¹ • (B.transpose * P) ∧
    IsStabilizingGain A B K

/-- An explicit stabilizing gain for `(A_np, B_np)`, placing the closed-loop
eigenvalues at `-1, -2, -3, -4` (witnesses that the pair is stabilizable,
the precondition of the Gain Synthesizer). -/
noncomputable def Kstab : Matrix (Fin 1) (Fin 4) ℝ := !![-12/5, -5, 287/5, 15]

lemma closedLoop_Kstab :
    A_np - B_np * Kstab = !![0, 1, 0, 0;
                             12/5, 5, -237/5, -15;
                             0, 0, 0, 1;
                             12/5, 5, -187/5, -15] := by
  ext i j
  fin_cases i <;> fin_cases j <;>
    simp [A_np, B_np, Kstab, Matrix.mul_apply, Fin.sum_univ_succ,
      Matrix.vecHead, Matrix.vecTail] <;> norm_num

lemma charpoly_closedLoop (μ : ℂ) :
    Matrix.det (μ • (1 : Matrix (Fin 4) (Fin 4) ℂ) -
        ((A_np - B_np * Kstab).map Complex.ofReal)) =
      (μ + 1) * (μ + 2) * (μ + 3) * (μ + 4) := by
  rw [closedLoop_Kstab]
  have : (μ • (1 : Matrix (Fin 4) (Fin 4) ℂ) -
      ((!![0, 1, 0, 0;
           12/5, 5, -237/5, -15;
           0, 0, 0, 1;
           12/5, 5, -187/5, -15] : Matrix (Fin 4) (Fin 4) ℝ).map
        Complex.ofReal)) =
      !![μ, -1, 0, 0;
         -12/5, μ - 5, 237/5, 15;
         0, 0, μ, -1;
         -12/5, -5, 187/5, μ + 15] := by
    ext i j
    fin_cases i <;> fin_cases j <;>
      simp [Matrix.one_apply, Matrix.vecHead, Matrix.vecTail] <;>
      norm_num
  rw [this]
  simp [Matrix.det_succ_row_zero, Fin.sum_univ_succ, Fin.succAbove,
    Matrix.vecHead, Matrix.vecTail, Fin.lt_def]
  ring

/-! ## Claim C3: the LQR gain stabilizes the linearization -/

/-- C3: for the `(A, B)` pair obtained by linearizing at the inverted
equilibrium with `m1 = m2 = l = 1`, `g = -10`: the pair is the closed form
computed by the Linearizer, it is stabilizable (an explicit gain places the
closed-loop eigenvalues at `-1, -2, -3, -4`), and any gain satisfying the
Gain Synthesizer's contract with `Q = I`, `R = 0.001` yields a closed-loop
matrix all of whose eigenvalues have strictly negative real part. -/
theorem lqr_gain_stabilizes :
    (∀ x1₀ u₀ : ℝ, A_np = A_spL 1 1 1 (-10) x1₀ u₀ ∧
        B_np = B_spL 1 1 1 (-10) x1₀ u₀) ∧
      (∃ K, IsStabilizingGain A_np B_np K) ∧
      ∀ K, LQRGainSpec A_np B_np (1 : Matrix (Fin 4) (Fin 4) ℝ) (1 / 1000) K →
        IsStabilizingGain A_np B_np K := by
  refine ⟨?_, ⟨Kstab, ?_⟩, ?_⟩
  · intro x1₀ u₀
    constructor
    · rw [A_spL_eq 1 1 1 (-10) x1₀ u₀ one_ne_zero one_ne_zero]
      ext i j
      fin_cases i <;> fin_cases j <;>
        simp [A_np, AmatL, Matrix.vecHead, Matrix.vecTail] <;> norm_num
    · rw [B_spL_eq 1 1 1 (-10) x1₀ u₀]
      ext i j
      fin_cases i <;> fin_cases j <;>
        simp [B_np, BmatL, Matrix.vecHead, Matrix.vecTail]
  · intro μ hμ
    rw [IsEigenvalue, charpoly_closedLoop] at hμ
    rcases mul_eq_zero.mp hμ with h | h
    · rcases mul_eq_zero.mp h with h | h
      · rcases mul_eq_zero.mp h with h | h
        · have : μ = -1 := by linear_combination h
          simp [this]
        · have : μ = -2 := by linear_combination h
          simp [this]
      · have : μ = -3 := by linear_combination h
        simp [this]
    · have : μ = -4 := by linear_combination h
      simp [this]
  · rintro K ⟨P, -, -, -, hstab⟩
    exact hstab

/-! ## The Hamiltonian variant

The second notebook derives the same cart-pendulum in Hamiltonian form:
states `(x1, p1, x2, p2)` with `p1, p2` the conjugate momenta, the
Hamiltonian obtained by a Legendre transformation, and the rates given by
`x1d = ∂H/∂p1`, `p1d = -∂H/∂x1 - u`, `x2d = ∂H/∂p2`, `p2d = -∂H/∂x2`. -/

/-- The Lagrangian `L = ke - pe` of the cart-pendulum in plain symbols
(angle `x2`, velocities `v1`, `v2`):
`ke = m1·v1²/2 + m2·(v1² + 2·l·v1·v2·cos x2 + l²·v2²)/2`,
`pe = m2·g·l·cos x2`. -/
noncomputable def LagrangianL (m1 m2 l g x2 v1 v2 : ℝ) : ℝ :=
  m1 * v1 ^ 2 / 2 +
      m2 * (v1 ^ 2 + 2 * l * v1 * v2 * Real.cos x2 + l ^ 2 * v2 ^ 2) / 2 -
    m2 * g * l * Real.cos x2

/-- `vels_sol`: the cart velocity solved from the conjugate-momentum
equations `p1 = ∂L/∂v1`, `p2 = ∂L/∂v2`. -/
noncomputable def v1_of_p (m1 m2 l x2 p1 p2 : ℝ) : ℝ :=
  (l * p1 - Real.cos x2 * p2) / (l * (m1 + m2 * Real.sin x2 ^ 2))

/-- `vels_sol`: the angular velocity solved from the conjugate-momentum
equations. -/
noncomputable def v2_of_p (m1 m2 l x2 p1 p2 : ℝ) : ℝ :=
  ((m1 + m2) * p2 - m2 * l * Real.cos x2 * p1) /
    (m2 * l ^ 2 * (m1 + m2 * Real.sin x2 ^ 2))

lemma denom_pos (m1 m2 x2 : ℝ) (hm1 : 0 < m1) (hm2 : 0 < m2) :
    0 < m1 + m2 * Real.sin x2 ^ 2 := by positivity

/-- Fidelity of `vels_sol`: the solved velocities satisfy the
conjugate-momentum equations (`conjugate_momentum_eqs`), i.e.
`∂L/∂v1 = p1` and `∂L/∂v2 = p2` at `(v1, v2) = vels_sol`. -/
theorem vels_sol_solves (m1 m2 l x2 p1 p2 : ℝ) (hm1 : 0 < m1)
    (hm2 : 0 < m2) (hl : l ≠ 0) :
    (m1 + m2) * v1_of_p m1 m2 l x2 p1 p2 +
        m2 * l * Real.cos x2 * v2_of_p m1 m2 l x2 p1 p2 = p1 ∧
      m2 * l * Real.cos x2 * v1_of_p m1 m2 l x2 p1 p2 +
        m2 * l ^ 2 * v2_of_p m1 m2 l x2 p1 p2 = p2 := by
  have hden : m1 + m2 * Real.sin x2 ^ 2 ≠ 0 :=
    (denom_pos m1 m2 x2 hm1 hm2).ne'
  have hm2' : m2 ≠ 0 := hm2.ne'
  constructor
  · unfold v1_of_p v2_of_p
    field_simp
    linear_combination (-m2 ^ 2 * l ^ 3 * (m1 + m2 * Real.sin x2 ^ 2) * p1) *
      Real.sin_sq_add_cos_sq x2
  · unfold v1_of_p v2_of_p
    field_simp
    linear_combination (-m2 ^ 2 * l ^ 3 * (m1 + m2 * Real.sin x2 ^ 2) * p2) *
      Real.sin_sq_add_cos_sq x2

/-- The Hamiltonian of the notebook: the Legendre transformation
`H = p1·v1 + p2·v2 - L` with the velocities replaced by `vels_sol`. -/
noncomputable def Hamiltonian (m1 m2 l g p1 x2 p2 : ℝ) : ℝ :=
  p1 * v1_of_p m1 m2 l x2 p1 p2 + p2 * v2_of_p m1 m2 l x2 p1 p2 -
    LagrangianL m1 m2 l g x2 (v1_of_p m1 m2 l x2 p1 p2)
      (v2_of_p m1 m2 l x2 p1 p2)

/-- The simplified closed form of the Hamiltonian:
`H = (m2·l²·p1² - 2·m2·l·cos x2·p1·p2 + (m1+m2)·p2²) / (2·m2·l²·(m1+m2·sin²x2)) + m2·g·l·cos x2`. -/
noncomputable def Hexp (m1 m2 l g p1 x2 p2 : ℝ) : ℝ :=
  (m2 * l ^ 2 * p1 ^ 2 - 2 * m2 * l * Real.cos x2 * p1 * p2 +
      (m1 + m2) * p2 ^ 2) /
    (2 * m2 * l ^ 2 * (m1 + m2 * Real.sin x2 ^ 2)) +
  m2 * g * l * Real.cos x2

/-- The Legendre transform evaluates to the simplified closed form. -/
theorem Hamiltonian_eq_Hexp (m1 m2 l g p1 x2 p2 : ℝ) (hm1 : 0 < m1)
    (hm2 : 0 < m2) (hl : l ≠ 0) :
    Hamiltonian m1 m2 l g p1 x2 p2 = Hexp m1 m2 l g p1 x2 p2 := by
  obtain ⟨h1, h2⟩ := vels_sol_solves m1 m2 l x2 p1 p2 hm1 hm2 hl
  have hden : m1 + m2 * Real.sin x2 ^ 2 ≠ 0 :=
    (denom_pos m1 m2 x2 hm1 hm2).ne'
  have hm2' : m2 ≠ 0 := hm2.ne'
  have step1 : Hamiltonian m1 m2 l g p1 x2 p2 =
      (p1 * v1_of_p m1 m2 l x2 p1 p2 + p2 * v2_of_p m1 m2 l x2 p1 p2) / 2 +
        m2 * g * l * Real.cos x2 := by
    unfold Hamiltonian LagrangianL
    linear_combination (-(v1_of_p m1 m2 l x2 p1 p2) / 2) * h1 +
      (-(v2_of_p m1 m2 l x2 p1 p2) / 2) * h2
  rw [step1]
  unfold v1_of_p v2_of_p Hexp
  field_simp
  ring

/-- `x1d_exp = ddx(H, p1)`: Hamilton's equation for the cart position. -/
noncomputable def x1d_exp (m1 m2 l g p1 x2 p2 : ℝ) : ℝ :=
  deriv (fun z => Hamiltonian m1 m2 l g z x2 p2) p1

/-- `p1d_exp = -ddx(H, x1) - u`: Hamilton's equation for the cart momentum;
the notebook subtracts the control `u` (note the sign).  `H` does not
involve `x1`, so the derivative is taken of a constant function. -/
noncomputable def p1d_exp (m1 m2 l g x1 p1 x2 p2 u : ℝ) : ℝ :=
  -deriv (fun _ : ℝ => Hamiltonian m1 m2 l g p1 x2 p2) x1 - u

/-- `x2d_exp = ddx(H, p2)`: Hamilton's equation for the angle. -/
noncomputable def x2d_exp (m1 m2 l g p1 x2 p2 : ℝ) : ℝ :=
  deriv (fun z => Hamiltonian m1 m2 l g p1 x2 z) p2

/-- `p2d_exp = -ddx(H, x2)`: Hamilton's equation for the angular
momentum. -/
noncomputable def p2d_exp (m1 m2 l g p1 x2 p2 : ℝ) : ℝ :=
  -deriv (fun z => Hamiltonian m1 m2 l g p1 z p2) x2

/-- `get_PendulumCartRates_Hamiltonian(X, t, uf, m1, m2, l, g)`: the dynamics
function of the Hamiltonian notebook; state layout `(x1, p1, x2, p2)`. -/
noncomputable def get_PendulumCartRates_Hamiltonian (X : State) (t : ℝ)
    (uf : State → ℝ) (m1 m2 l g : ℝ) : State :=
  let u := uf X
  ![x1d_exp m1 m2 l g (X 1) (X 2) (X 3),
    p1d_exp m1 m2 l g (X 0) (X 1) (X 2) (X 3) u,
    x2d_exp m1 m2 l g (X 1) (X 2) (X 3),
    p2d_exp m1 m2 l g (X 1) (X 2) (X 3)]

/-- The closed form of `-∂H/∂x2`. -/
noncomputable def p2d_closed (m1 m2 l g p1 x2 p2 : ℝ) : ℝ :=
  m2 * g * l * Real.sin x2 -
    Real.sin x2 * (l * p1 * p2 * (m1 + m2 * Real.sin x2 ^ 2) -
        (m2 * l ^ 2 * p1 ^ 2 - 2 * m2 * l * Real.cos x2 * p1 * p2 +
          (m1 + m2) * p2 ^ 2) * Real.cos x2) /
      (l ^ 2 * (m1 + m2 * Real.sin x2 ^ 2) ^ 2)

lemma x1d_exp_eq (m1 m2 l g p1 x2 p2 : ℝ) (hm1 : 0 < m1) (hm2 : 0 < m2)
    (hl : l ≠ 0) :
    x1d_exp m1 m2 l g p1 x2 p2 = v1_of_p m1 m2 l x2 p1 p2 := by
  have hden : m1 + m2 * Real.sin x2 ^ 2 ≠ 0 :=
    (denom_pos m1 m2 x2 hm1 hm2).ne'
  have hm2' : m2 ≠ 0 := hm2.ne'
  have hfun : (fun z => Hamiltonian m1 m2 l g z x2 p2) =
      fun z => Hexp m1 m2 l g z x2 p2 := by
    funext z; exact Hamiltonian_eq_Hexp m1 m2 l g z x2 p2 hm1 hm2 hl
  have hN : HasDerivAt
      (fun z => m2 * l ^ 2 * z ^ 2 - 2 * m2 * l * Real.cos x2 * z * p2 +
        (m1 + m2) * p2 ^ 2)
      (m2 * l ^ 2 * (2 * p1 ^ 1) - 2 * m2 * l * Real.cos x2 * 1 * p2) p1 := by
    have h1 := (hasDerivAt_pow 2 p1).const_mul (m2 * l ^ 2)
    have h2 := ((hasDerivAt_id p1).const_mul
      (2 * m2 * l * Real.cos x2)).mul_const p2
    simpa using (h1.sub h2).add_const ((m1 + m2) * p2 ^ 2)
  have hdiv := (hN.div_const
    (2 * m2 * l ^ 2 * (m1 + m2 * Real.sin x2 ^ 2))).add_const
    (m2 * g * l * Real.cos x2)
  rw [x1d_exp, hfun]
  rw [show (fun z => Hexp m1 m2 l g z x2 p2) =
      fun z => (m2 * l ^ 2 * z ^ 2 - 2 * m2 * l * Real.cos x2 * z * p2 +
          (m1 + m2) * p2 ^ 2) /
        (2 * m2 * l ^ 2 * (m1 + m2 * Real.sin x2 ^ 2)) +
        m2 * g * l * Real.cos x2 from rfl]
  rw [hdiv.deriv]
  unfold v1_of_p
  field_simp
  ring

lemma p1d_exp_eq (m1 m2 l g x1 p1 x2 p2 u : ℝ) :
    p1d_exp m1 m2 l g x1 p1 x2 p2 u = -u := by
  simp [p1d_exp]

lemma x2d_exp_eq (m1 m2 l g p1 x2 p2 : ℝ) (hm1 : 0 < m1) (hm2 : 0 < m2)
    (hl : l ≠ 0) :
    x2d_exp m1 m2 l g p1 x2 p2 = v2_of_p m1 m2 l x2 p1 p2 := by
  have hden : m1 + m2 * Real.sin x2 ^ 2 ≠ 0 :=
    (denom_pos m1 m2 x2 hm1 hm2).ne'
  have hm2' : m2 ≠ 0 := hm2.ne'
  have hfun : (fun z => Hamiltonian m1 m2 l g p1 x2 z) =
      fun z => Hexp m1 m2 l g p1 x2 z := by
    funext z; exact Hamiltonian_eq_Hexp m1 m2 l g p1 x2 z hm1 hm2 hl
  have hN : HasDerivAt
      (fun z => m2 * l ^ 2 * p1 ^ 2 - 2 * m2 * l * Real.cos x2 * p1 * z +
        (m1 + m2) * z ^ 2)
      (-(2 * m2 * l * Real.cos x2 * p1) + (m1 + m2) * (2 * p2 ^ 1)) p2 := by
    have h2 := (hasDerivAt_id p2).const_mul (2 * m2 * l * Real.cos x2 * p1)
    have h3 := (hasDerivAt_pow 2 p2).const_mul (m1 + m2)
    have h23 := (h2.const_sub (m2 * l ^ 2 * p1 ^ 2)).add h3
    simpa [mul_comm, mul_assoc, mul_left_comm, sub_eq_add_neg, add_comm,
      add_assoc, add_left_comm] using h23
  have hdiv := (hN.div_const
    (2 * m2 * l ^ 2 * (m1 + m2 * Real.sin x2 ^ 2))).add_const
    (m2 * g * l * Real.cos x2)
  rw [x2d_exp, hfun]
  rw [show (fun z => Hexp m1 m2 l g p1 x2 z) =
      fun z => (m2 * l ^ 2 * p1 ^ 2 - 2 * m2 * l * Real.cos x2 * p1 * z +
          (m1 + m2) * z ^ 2) /
        (2 * m2 * l ^ 2 * (m1 + m2 * Real.sin x2 ^ 2)) +
        m2 * g * l * Real.cos x2 from rfl]
  rw [hdiv.deriv]
  unfold v2_of_p
  field_simp
  ring

lemma p2d_exp_eq (m1 m2 l g p1 x2 p2 : ℝ) (hm1 : 0 < m1) (hm2 : 0 < m2)
    (hl : l ≠ 0) :
    p2d_exp m1 m2 l g p1 x2 p2 = p2d_closed m1 m2 l g p1 x2 p2 := by
  have hden : m1 + m2 * Real.sin x2 ^ 2 ≠ 0 :=
    (denom_pos m1 m2 x2 hm1 hm2).ne'
  have hm2' : m2 ≠ 0 := hm2.ne'
  have hDne : 2 * m2 * l ^ 2 * (m1 + m2 * Real.sin x2 ^ 2) ≠ 0 := by
    positivity
  have hfun : (fun z => Hamiltonian m1 m2 l g p1 z p2) =
      fun z => Hexp m1 m2 l g p1 z p2 := by
    funext z; exact Hamiltonian_eq_Hexp m1 m2 l g p1 z p2 hm1 hm2 hl
  have hs := Real.hasDerivAt_sin x2
  have hc := Real.hasDerivAt_cos x2
  have hN : HasDerivAt
      (fun z => m2 * l ^ 2 * p1 ^ 2 - 2 * m2 * l * Real.cos z * p1 * p2 +
        (m1 + m2) * p2 ^ 2)
      (-(2 * m2 * l * -Real.sin x2 * p1 * p2)) x2 := by
    have h2 := ((hc.const_mul (2 * m2 * l)).mul_const p1).mul_const p2
    simpa using (h2.const_sub (m2 * l ^ 2 * p1 ^ 2)).add_const
      ((m1 + m2) * p2 ^ 2)
  have hD : HasDerivAt
      (fun z => 2 * m2 * l ^ 2 * (m1 + m2 * Real.sin z ^ 2))
      (2 * m2 * l ^ 2 * (m2 * (2 * Real.sin x2 ^ 1 * Real.cos x2))) x2 :=
    (((hs.pow 2).const_mul m2).const_add m1).const_mul (2 * m2 * l ^ 2)
  have hdiv := (hN.div hD hDne).add (hc.const_mul (m2 * g * l))
  rw [p2d_exp, hfun]
  rw [show (fun z => Hexp m1 m2 l g p1 z p2) =
      fun z => (m2 * l ^ 2 * p1 ^ 2 - 2 * m2 * l * Real.cos z * p1 * p2 +
          (m1 + m2) * p2 ^ 2) /
        (2 * m2 * l ^ 2 * (m1 + m2 * Real.sin z ^ 2)) +
        m2 * g * l * Real.cos z from rfl]
  rw [hdiv.deriv]
  unfold p2d_closed
  field_simp
  ring

/-! ## The Linearizer (Hamiltonian variant)

The Hamiltonian notebook repeats the linearization with
`Xds = [x1d_exp, p1d_exp, x2d_exp, p2d_exp]` and `subs_stationary` fixing
`x2 = π`, `p1 = 0`, `p2 = 0`. -/

/-- The vector of state-derivative expressions of the Hamiltonian
notebook. -/
noncomputable def XdsH (m1 m2 l g : ℝ) (X : State) (u : ℝ) : State :=
  ![x1d_exp m1 m2 l g (X 1) (X 2) (X 3),
    p1d_exp m1 m2 l g (X 0) (X 1) (X 2) (X 3) u,
    x2d_exp m1 m2 l g (X 1) (X 2) (X 3),
    p2d_exp m1 m2 l g (X 1) (X 2) (X 3)]

/-- `A_sp` of the Hamiltonian notebook: the Jacobian of the Hamiltonian
state-derivative expressions with respect to the state, evaluated at the
stationary point (angle `π`, momenta `0`). -/
noncomputable def A_spH (m1 m2 l g x1₀ u₀ : ℝ) : Matrix (Fin 4) (Fin 4) ℝ :=
  Matrix.of fun i j =>
    deriv (fun z => XdsH m1 m2 l g (Function.update (eqStateL x1₀) j z) u₀ i)
      (eqStateL x1₀ j)

/-- `B_sp` of the Hamiltonian notebook: the derivative with respect to the
control `u` at the stationary point. -/
noncomputable def B_spH (m1 m2 l g x1₀ u₀ : ℝ) : Matrix (Fin 4) (Fin 1) ℝ :=
  Matrix.of fun i _ =>
    deriv (fun z => XdsH m1 m2 l g (eqStateL x1₀) z i) u₀

/-- The closed form of the Hamiltonian-variant linearized state matrix at
the inverted equilibrium. -/
noncomputable def AmatH (m1 m2 l g : ℝ) : Matrix (Fin 4) (Fin 4) ℝ :=
  !![0, 1 / m1, 0, 1 / (l * m1);
     0, 0, 0, 0;
     0, 1 / (l * m1), 0, (m1 + m2) / (m2 * l ^ 2 * m1);
     0, 0, -(m2 * g * l), 0]

/-- The closed form of the Hamiltonian-variant linearized input matrix:
note the `-1` entry coming from `p1d = -∂H/∂x1 - u`. -/
noncomputable def BmatH : Matrix (Fin 4) (Fin 1) ℝ := !![0; -1; 0; 0]

/-- `A_sp` of the Hamiltonian notebook evaluates to the closed form
`AmatH`. -/
theorem A_spH_eq (m1 m2 l g x1₀ u₀ : ℝ) (hm1 : 0 < m1) (hm2 : 0 < m2)
    (hl : l ≠ 0) :
    A_spH m1 m2 l g x1₀ u₀ = AmatH m1 m2 l g := by
  have hm1' : m1 ≠ 0 := hm1.ne'
  have hm2' : m2 ≠ 0 := hm2.ne'
  ext i j
  fin_cases i <;> fin_cases j
  · -- (0,0): constant in x1
    show deriv (fun _ => x1d_exp m1 m2 l g 0 Real.pi 0) x1₀ = AmatH m1 m2 l g 0 0
    simp [AmatH, Matrix.vecHead, Matrix.vecTail]
  · -- (0,1): ∂(x1d)/∂p1 = 1/m1
    show deriv (fun z => XdsH m1 m2 l g (Function.update (eqStateL x1₀) 1 z) u₀ 0)
        (eqStateL x1₀ 1) = AmatH m1 m2 l g 0 1
    simp only [updL1, eqStateL_1]
    have h : (fun z => XdsH m1 m2 l g ![x1₀, z, Real.pi, 0] u₀ 0) =
        fun z => l * z / (l * m1) := by
      funext z
      rw [show XdsH m1 m2 l g ![x1₀, z, Real.pi, 0] u₀ 0 =
          x1d_exp m1 m2 l g z Real.pi 0 from rfl,
        x1d_exp_eq m1 m2 l g z Real.pi 0 hm1 hm2 hl]
      unfold v1_of_p
      rw [Real.sin_pi, Real.cos_pi]
      ring
    have hd := ((hasDerivAt_id' (0 : ℝ)).const_mul l).div_const (l * m1)
    rw [h, hd.deriv]
    field_simp [AmatH, Matrix.vecHead, Matrix.vecTail]
  · -- (0,2): vanishes at zero momenta
    show deriv (fun z => XdsH m1 m2 l g (Function.update (eqStateL x1₀) 2 z) u₀ 0)
        (eqStateL x1₀ 2) = AmatH m1 m2 l g 0 2
    simp only [updL2, eqStateL_2]
    have h : (fun z => XdsH m1 m2 l g ![x1₀, 0, z, 0] u₀ 0) =
        fun _ : ℝ => (0 : ℝ) := by
      funext z
      rw [show XdsH m1 m2 l g ![x1₀, 0, z, 0] u₀ 0 =
          x1d_exp m1 m2 l g 0 z 0 from rfl,
        x1d_exp_eq m1 m2 l g 0 z 0 hm1 hm2 hl]
      unfold v1_of_p
      simp
    rw [h]
    simp [AmatH, Matrix.vecHead, Matrix.vecTail]
  · -- (0,3): ∂(x1d)/∂p2 = 1/(l·m1)
    show deriv (fun z => XdsH m1 m2 l g (Function.update (eqStateL x1₀) 3 z) u₀ 0)
        (eqStateL x1₀ 3) = AmatH m1 m2 l g 0 3
    simp only [updL3, eqStateL_3]
    have h : (fun z => XdsH m1 m2 l g ![x1₀, 0, Real.pi, z] u₀ 0) =
        fun z => z / (l * m1) := by
      funext z
      rw [show XdsH m1 m2 l g ![x1₀, 0, Real.pi, z] u₀ 0 =
          x1d_exp m1 m2 l g 0 Real.pi z from rfl,
        x1d_exp_eq m1 m2 l g 0 Real.pi z hm1 hm2 hl]
      unfold v1_of_p
      rw [Real.sin_pi, Real.cos_pi]
      ring
    rw [h, deriv_div_const, deriv_id'']
    simp [AmatH, Matrix.vecHead, Matrix.vecTail]
  · -- (1,0): p1d is constant in the state
    show deriv (fun z => XdsH m1 m2 l g (Function.update (eqStateL x1₀) 0 z) u₀ 1)
        (eqStateL x1₀ 0) = AmatH m1 m2 l g 1 0
    simp only [updL0, eqStateL_0]
    have h : (fun z => XdsH m1 m2 l g ![z, 0, Real.pi, 0] u₀ 1) =
        fun _ : ℝ => -u₀ := by
      funext z
      exact p1d_exp_eq m1 m2 l g z 0 Real.pi 0 u₀
    rw [h]
    simp [AmatH, Matrix.vecHead, Matrix.vecTail]
  · show deriv (fun z => XdsH m1 m2 l g (Function.update (eqStateL x1₀) 1 z) u₀ 1)
        (eqStateL x1₀ 1) = AmatH m1 m2 l g 1 1
    simp only [updL1, eqStateL_1]
    have h : (fun z => XdsH m1 m2 l g ![x1₀, z, Real.pi, 0] u₀ 1) =
        fun _ : ℝ => -u₀ := by
      funext z
      exact p1d_exp_eq m1 m2 l g x1₀ z Real.pi 0 u₀
    rw [h]
    simp [AmatH, Matrix.vecHead, Matrix.vecTail]
  · show deriv (fun z => XdsH m1 m2 l g (Function.update (eqStateL x1₀) 2 z) u₀ 1)
        (eqStateL x1₀ 2) = AmatH m1 m2 l g 1 2
    simp only [updL2, eqStateL_2]
    have h : (fun z => XdsH m1 m2 l g ![x1₀, 0, z, 0] u₀ 1) =
        fun _ : ℝ => -u₀ := by
      funext z
      exact p1d_exp_eq m1 m2 l g x1₀ 0 z 0 u₀
    rw [h]
    simp [AmatH, Matrix.vecHead, Matrix.vecTail]
  · show deriv (fun z => XdsH m1 m2 l g (Function.update (eqStateL x1₀) 3 z) u₀ 1)
        (eqStateL x1₀ 3) = AmatH m1 m2 l g 1 3
    simp only [updL3, eqStateL_3]
    have h : (fun z => XdsH m1 m2 l g ![x1₀, 0, Real.pi, z] u₀ 1) =
        fun _ : ℝ => -u₀ := by
      funext z
      exact p1d_exp_eq m1 m2 l g x1₀ 0 Real.pi z u₀
    rw [h]
    simp [AmatH, Matrix.vecHead, Matrix.vecTail]
  · -- (2,0): constant in x1
    show deriv (fun _ => x2d_exp m1 m2 l g 0 Real.pi 0) x1₀ = AmatH m1 m2 l g 2 0
    simp [AmatH, Matrix.vecHead, Matrix.vecTail]
  · -- (2,1): ∂(x2d)/∂p1 = 1/(l·m1)
    show deriv (fun z => XdsH m1 m2 l g (Function.update (eqStateL x1₀) 1 z) u₀ 2)
        (eqStateL x1₀ 1) = AmatH m1 m2 l g 2 1
    simp only [updL1, eqStateL_1]
    have h : (fun z => XdsH m1 m2 l g ![x1₀, z, Real.pi, 0] u₀ 2) =
        fun z => m2 * l * z / (m2 * l ^ 2 * m1) := by
      funext z
      rw [show XdsH m1 m2 l g ![x1₀, z, Real.pi, 0] u₀ 2 =
          x2d_exp m1 m2 l g z Real.pi 0 from rfl,
        x2d_exp_eq m1 m2 l g z Real.pi 0 hm1 hm2 hl]
      unfold v2_of_p
      rw [Real.sin_pi, Real.cos_pi]
      ring
    have hd := ((hasDerivAt_id' (0 : ℝ)).const_mul (m2 * l)).div_const
      (m2 * l ^ 2 * m1)
    rw [h, hd.deriv]
    rw [show AmatH m1 m2 l g 2 1 = 1 / (l * m1) from rfl]
    field_simp
    ring
  · -- (2,2): vanishes at zero momenta
    show deriv (fun z => XdsH m1 m2 l g (Function.update (eqStateL x1₀) 2 z) u₀ 2)
        (eqStateL x1₀ 2) = AmatH m1 m2 l g 2 2
    simp only [updL2, eqStateL_2]
    have h : (fun z => XdsH m1 m2 l g ![x1₀, 0, z, 0] u₀ 2) =
        fun _ : ℝ => (0 : ℝ) := by
      funext z
      rw [show XdsH m1 m2 l g ![x1₀, 0, z, 0] u₀ 2 =
          x2d_exp m1 m2 l g 0 z 0 from rfl,
        x2d_exp_eq m1 m2 l g 0 z 0 hm1 hm2 hl]
      unfold v2_of_p
      simp
    rw [h]
    simp [AmatH, Matrix.vecHead, Matrix.vecTail]
  · -- (2,3): ∂(x2d)/∂p2 = (m1+m2)/(m2·l²·m1)
    show deriv (fun z => XdsH m1 m2 l g (Function.update (eqStateL x1₀) 3 z) u₀ 2)
        (eqStateL x1₀ 3) = AmatH m1 m2 l g 2 3
    simp only [updL3, eqStateL_3]
    have h : (fun z => XdsH m1 m2 l g ![x1₀, 0, Real.pi, z] u₀ 2) =
        fun z => (m1 + m2) * z / (m2 * l ^ 2 * m1) := by
      funext z
      rw [show XdsH m1 m2 l g ![x1₀, 0, Real.pi, z] u₀ 2 =
          x2d_exp m1 m2 l g 0 Real.pi z from rfl,
        x2d_exp_eq m1 m2 l g 0 Real.pi z hm1 hm2 hl]
      unfold v2_of_p
      rw [Real.sin_pi, Real.cos_pi]
      ring
    have hd := ((hasDerivAt_id' (0 : ℝ)).const_mul (m1 + m2)).div_const
      (m2 * l ^ 2 * m1)
    rw [h, hd.deriv]
    rw [show AmatH m1 m2 l g 2 3 = (m1 + m2) / (m2 * l ^ 2 * m1) from rfl]
    ring
  · -- (3,0): constant in x1
    show deriv (fun _ => p2d_exp m1 m2 l g 0 Real.pi 0) x1₀ = AmatH m1 m2 l g 3 0
    simp [AmatH, Matrix.vecHead, Matrix.vecTail]
  · -- (3,1): vanishes since sin π = 0
    show deriv (fun z => XdsH m1 m2 l g (Function.update (eqStateL x1₀) 1 z) u₀ 3)
        (eqStateL x1₀ 1) = AmatH m1 m2 l g 3 1
    simp only [updL1, eqStateL_1]
    have h : (fun z => XdsH m1 m2 l g ![x1₀, z, Real.pi, 0] u₀ 3) =
        fun _ : ℝ => (0 : ℝ) := by
      funext z
      rw [show XdsH m1 m2 l g ![x1₀, z, Real.pi, 0] u₀ 3 =
          p2d_exp m1 m2 l g z Real.pi 0 from rfl,
        p2d_exp_eq m1 m2 l g z Real.pi 0 hm1 hm2 hl]
      unfold p2d_closed
      simp [Real.sin_pi]
    rw [h]
    simp [AmatH, Matrix.vecHead, Matrix.vecTail]
  · -- (3,2): ∂(p2d)/∂x2 = -m2·g·l
    show deriv (fun z => XdsH m1 m2 l g (Function.update (eqStateL x1₀) 2 z) u₀ 3)
        (eqStateL x1₀ 2) = AmatH m1 m2 l g 3 2
    simp only [updL2, eqStateL_2]
    have h : (fun z => XdsH m1 m2 l g ![x1₀, 0, z, 0] u₀ 3) =
        fun z => m2 * g * l * Real.sin z := by
      funext z
      rw [show XdsH m1 m2 l g ![x1₀, 0, z, 0] u₀ 3 =
          p2d_exp m1 m2 l g 0 z 0 from rfl,
        p2d_exp_eq m1 m2 l g 0 z 0 hm1 hm2 hl]
      unfold p2d_closed
      simp
    rw [h, ((Real.hasDerivAt_sin Real.pi).const_mul (m2 * g * l)).deriv]
    rw [show AmatH m1 m2 l g 3 2 = -(m2 * g * l) from rfl]
    rw [Real.cos_pi]
    ring
  · -- (3,3): vanishes since sin π = 0
    show deriv (fun z => XdsH m1 m2 l g (Function.update (eqStateL x1₀) 3 z) u₀ 3)
        (eqStateL x1₀ 3) = AmatH m1 m2 l g 3 3
    simp only [updL3, eqStateL_3]
    have h : (fun z => XdsH m1 m2 l g ![x1₀, 0, Real.pi, z] u₀ 3) =
        fun _ : ℝ => (0 : ℝ) := by
      funext z
      rw [show XdsH m1 m2 l g ![x1₀, 0, Real.pi, z] u₀ 3 =
          p2d_exp m1 m2 l g 0 Real.pi z from rfl,
        p2d_exp_eq m1 m2 l g 0 Real.pi z hm1 hm2 hl]
      unfold p2d_closed
      simp [Real.sin_pi]
    rw [h]
    simp [AmatH, Matrix.vecHead, Matrix.vecTail]

/-- `B_sp` of the Hamiltonian notebook evaluates to the closed form
`BmatH`: the only nonzero entry is `∂(p1d)/∂u = -1`. -/
theorem B_spH_eq (m1 m2 l g x1₀ u₀ : ℝ) :
    B_spH m1 m2 l g x1₀ u₀ = BmatH := by
  ext i j
  fin_cases i <;> fin_cases j
  · show deriv (fun _ => x1d_exp m1 m2 l g 0 Real.pi 0) u₀ = BmatH 0 0
    simp [BmatH, Matrix.vecHead, Matrix.vecTail]
  · show deriv (fun z => XdsH m1 m2 l g (eqStateL x1₀) z 1) u₀ = BmatH 1 0
    have h : (fun z => XdsH m1 m2 l g (eqStateL x1₀) z 1) =
        fun z : ℝ => -z := by
      funext z
      have := p1d_exp_eq m1 m2 l g x1₀ 0 Real.pi 0 z
      rw [show XdsH m1 m2 l g (eqStateL x1₀) z 1 =
          p1d_exp m1 m2 l g x1₀ 0 Real.pi 0 z from rfl, this]
    have hd := (hasDerivAt_id' u₀).neg
    rw [h, hd.deriv]
    simp [BmatH, Matrix.vecHead, Matrix.vecTail]
  · show deriv (fun _ => x2d_exp m1 m2 l g 0 Real.pi 0) u₀ = BmatH 2 0
    simp [BmatH, Matrix.vecHead, Matrix.vecTail]
  · show deriv (fun _ => p2d_exp m1 m2 l g 0 Real.pi 0) u₀ = BmatH 3 0
    simp [BmatH, Matrix.vecHead, Matrix.vecTail]

/-! ## Claim C2: the Linearizer computes the Jacobian at the equilibrium -/

/-- C2: in both notebook variants, `A_sp[i][j]` is the partial derivative of
the `i`-th state-derivative expression with respect to the `j`-th state
variable and `B_sp[i]` the partial derivative with respect to the control,
evaluated at the equilibrium (angle `π`, rates/momenta `0`); the results are
the stated closed-form 4×4 and 4×1 matrices, independent of the free cart
position and nominal control. -/
theorem linearizer_jacobian (m1 m2 l g x1₀ u₀ : ℝ) (hm1 : 0 < m1)
    (hm2 : 0 < m2) (hl : 0 < l) :
    A_spL m1 m2 l g x1₀ u₀ = AmatL m1 m2 l g ∧
      B_spL m1 m2 l g x1₀ u₀ = BmatL m1 m2 l ∧
      A_spH m1 m2 l g x1₀ u₀ = AmatH m1 m2 l g ∧
      B_spH m1 m2 l g x1₀ u₀ = BmatH :=
  ⟨A_spL_eq m1 m2 l g x1₀ u₀ hm1.ne' hl.ne',
    B_spL_eq m1 m2 l g x1₀ u₀,
    A_spH_eq m1 m2 l g x1₀ u₀ hm1 hm2 hl.ne',
    B_spH_eq m1 m2 l g x1₀ u₀⟩

/-- Witness for C2 at the notebook parameters `m1 = m2 = l = 1`,
`g = -10`. -/
theorem linearizer_jacobian_witness :
    (0 : ℝ) < 1 ∧
      (A_spL 1 1 1 (-10) 0 0 = AmatL 1 1 1 (-10) ∧
        B_spL 1 1 1 (-10) 0 0 = BmatL 1 1 1 ∧
        A_spH 1 1 1 (-10) 0 0 = AmatH 1 1 1 (-10) ∧
        B_spH 1 1 1 (-10) 0 0 = BmatH) :=
  ⟨by norm_num,
    linearizer_jacobian 1 1 1 (-10) 0 0 (by norm_num) (by norm_num)
      (by norm_num)⟩

/-! ## Claim C5: control sampling inside the integration step

In the code the control law `uf` is passed *into* `get_PendulumCartRates`
(`u = uf(X_)` on the state supplied for each derivative evaluation), and the
integrator evaluates the derivative at several internal stage states per
step.  We compare the step this wiring induces with a genuine zero-order
hold. -/

/-- One closed-loop integration step exactly as the code wires it
(notebook parameters): the control law is evaluated *inside* the dynamics
function, hence re-evaluated at every internal stage state. -/
noncomputable def stepInstage (uf : State → ℝ) (x : State) (t dt : ℝ) :
    State :=
  rk4Step (fun y s => get_PendulumCartRates y s uf 1 1 1 (-10)) x t dt

/-- One closed-loop integration step under a zero-order hold: the control is
sampled once on the step's initial state and held constant through the
internal stages. -/
noncomputable def stepZOH (uf : State → ℝ) (x : State) (t dt : ℝ) : State :=
  rk4Step (fun y s => get_PendulumCartRates y s (fun _ => uf x) 1 1 1 (-10))
    x t dt

/-- The proportional feedback law with gain row `(1, 0, 0, 0)` used in the
zero-order-hold counterexample: it returns `-x1`. -/
lemma control_law_ex (y : State) :
    control_law !![1, 0, 0, 0] y = -y 0 := by
  simp [control_law, Matrix.mulVec, Matrix.dotProduct, xsp,
    Fin.sum_univ_succ, Matrix.vecHead, Matrix.vecTail]

/-- The RK4 step with all stages written out. -/
lemma rk4Step_def (f : State → ℝ → State) (x : State) (t dt : ℝ) :
    rk4Step f x t dt =
      x + (dt / 6) • (f x t +
        (2 : ℝ) • f (x + (dt / 2) • f x t) (t + dt / 2) +
        (2 : ℝ) • f (x + (dt / 2) • f (x + (dt / 2) • f x t) (t + dt / 2))
          (t + dt / 2) +
        f (x + dt • f (x + (dt / 2) •
            f (x + (dt / 2) • f x t) (t + dt / 2)) (t + dt / 2)) (t + dt)) :=
  rfl

lemma ex_k1 : get_PendulumCartRates ![0, 1, Real.pi, 0] 0
    (control_law !![1, 0, 0, 0]) 1 1 1 (-10) = ![1, 0, 0, 0] := by
  funext i
  fin_cases i <;>
    simp [get_PendulumCartRates, y1dd_function, y2dd_function,
      control_law_ex, Real.sin_pi, Real.cos_pi]

lemma ex_s2 : (![0, 1, Real.pi, 0] : State) + ((1 : ℝ) / 2) • ![1, 0, 0, 0] =
    ![1 / 2, 1, Real.pi, 0] := by
  funext i
  fin_cases i <;> simp

lemma ex_k2 : get_PendulumCartRates ![1 / 2, 1, Real.pi, 0] (0 + 1 / 2)
    (control_law !![1, 0, 0, 0]) 1 1 1 (-10) =
      ![1, -(1 / 2), 0, -(1 / 2)] := by
  funext i
  fin_cases i <;>
    simp [get_PendulumCartRates, y1dd_function, y2dd_function,
      control_law_ex, Real.sin_pi, Real.cos_pi] <;> norm_num

lemma ex_s3 : (![0, 1, Real.pi, 0] : State) +
    ((1 : ℝ) / 2) • ![1, -(1 / 2), 0, -(1 / 2)] =
      ![1 / 2, 3 / 4, Real.pi, -(1 / 4)] := by
  funext i
  fin_cases i <;> simp <;> norm_num

lemma ex_k3 : get_PendulumCartRates ![1 / 2, 3 / 4, Real.pi, -(1 / 4)]
    (0 + 1 / 2) (control_law !![1, 0, 0, 0]) 1 1 1 (-10) =
      ![3 / 4, -(1 / 2), -(1 / 4), -(1 / 2)] := by
  funext i
  fin_cases i <;>
    simp [get_PendulumCartRates, y1dd_function, y2dd_function,
      control_law_ex, Real.sin_pi, Real.cos_pi] <;> norm_num

lemma ex_s4 : (![0, 1, Real.pi, 0] : State) +
    (1 : ℝ) • ![3 / 4, -(1 / 2), -(1 / 4), -(1 / 2)] =
      ![3 / 4, 1 / 2, Real.pi + -(1 / 4), -(1 / 2)] := by
  funext i
  fin_cases i <;> simp <;> norm_num

lemma instage_val :
    stepInstage (control_law !![1, 0, 0, 0]) ![0, 1, Real.pi, 0] 0 1 2 =
      Real.pi + 1 / 6 * (2 * -(1 / 4) + -(1 / 2)) := by
  show (rk4Step (fun y s => get_PendulumCartRates y s
      (control_law !![1, 0, 0, 0]) 1 1 1 (-10)) ![0, 1, Real.pi, 0] 0 1) 2 = _
  rw [rk4Step_def]
  rw [ex_k1, ex_s2, ex_k2, ex_s3, ex_k3, ex_s4]
  have hk4 : (get_PendulumCartRates ![3 / 4, 1 / 2, Real.pi + -(1 / 4), -(1 / 2)]
      (0 + 1) (control_law !![1, 0, 0, 0]) 1 1 1 (-10)) 2 = -(1 / 2) := by
    simp [get_PendulumCartRates]
  simp only [Pi.add_apply, Pi.smul_apply, smul_eq_mul]
  rw [hk4]
  norm_num

lemma zoh_k (y : State) (s : ℝ) (hy2 : y 2 = Real.pi) :
    get_PendulumCartRates y s
        (fun _ => control_law !![1, 0, 0, 0] ![0, 1, Real.pi, 0]) 1 1 1 (-10) =
      ![y 1, 0, y 3, 0] := by
  have hu : control_law !![1, 0, 0, 0] ![0, 1, Real.pi, 0] = 0 := by
    rw [control_law_ex]; simp
  funext i
  fin_cases i <;>
    simp [get_PendulumCartRates, y1dd_function, y2dd_function, hu, hy2,
      Real.sin_pi, Real.cos_pi]

lemma zoh_val :
    stepZOH (control_law !![1, 0, 0, 0]) ![0, 1, Real.pi, 0] 0 1 2 =
      Real.pi := by
  show (rk4Step (fun y s => get_PendulumCartRates y s
      (fun _ => control_law !![1, 0, 0, 0] ![0, 1, Real.pi, 0]) 1 1 1 (-10))
      ![0, 1, Real.pi, 0] 0 1) 2 = _
  rw [rk4Step_def]
  rw [zoh_k ![0, 1, Real.pi, 0] 0 rfl]
  have hs2 : (![0, 1, Real.pi, 0] : State) +
      ((1 : ℝ) / 2) • ![(![0, 1, Real.pi, 0] : State) 1, 0,
        (![0, 1, Real.pi, 0] : State) 3, 0] = ![1 / 2, 1, Real.pi, 0] := by
    funext i
    fin_cases i <;> simp
  rw [hs2, zoh_k ![1 / 2, 1, Real.pi, 0] (0 + 1 / 2) rfl]
  have hs3 : (![0, 1, Real.pi, 0] : State) +
      ((1 : ℝ) / 2) • ![(![1 / 2, 1, Real.pi, 0] : State) 1, 0,
        (![1 / 2, 1, Real.pi, 0] : State) 3, 0] = ![1 / 2, 1, Real.pi, 0] := by
    funext i
    fin_cases i <;> simp
  rw [hs3, zoh_k ![1 / 2, 1, Real.pi, 0] (0 + 1 / 2) rfl]
  have hs4 : (![0, 1, Real.pi, 0] : State) +
      (1 : ℝ) • ![(![1 / 2, 1, Real.pi, 0] : State) 1, 0,
        (![1 / 2, 1, Real.pi, 0] : State) 3, 0] = ![1, 1, Real.pi, 0] := by
    funext i
    fin_cases i <;> simp
  rw [hs4, zoh_k ![1, 1, Real.pi, 0] (0 + 1) rfl]
  simp only [Pi.add_apply, Pi.smul_apply, smul_eq_mul]
  norm_num

lemma stepInstage_ne_stepZOH :
    stepInstage (control_law !![1, 0, 0, 0]) ![0, 1, Real.pi, 0] 0 1 ≠
      stepZOH (control_law !![1, 0, 0, 0]) ![0, 1, Real.pi, 0] 0 1 := by
  intro hcontra
  have h2 := congrFun hcontra 2
  rw [instage_val, zoh_val] at h2
  have : (1 : ℝ) / 6 * (2 * -(1 / 4) + -(1 / 2)) = 0 := by linarith
  norm_num at this

/-- C5 (amended): the control used by a derivative evaluation is a function
of the state supplied to that evaluation (so each internal stage re-evaluates
the control law on its own stage state), and this genuinely differs from a
zero-order hold: there is a control law, state and step size at which the
code-wired step and the zero-order-hold step disagree. -/
theorem control_recomputed_per_stage :
    (∀ (X : State) (t : ℝ) (uf uf' : State → ℝ), uf X = uf' X →
        get_PendulumCartRates X t uf 1 1 1 (-10) =
          get_PendulumCartRates X t uf' 1 1 1 (-10)) ∧
      ∃ (uf : State → ℝ) (x : State) (t dt : ℝ),
        stepInstage uf x t dt ≠ stepZOH uf x t dt := by
  constructor
  · intro X t uf uf' h
    simp [get_PendulumCartRates, h]
  · exact ⟨control_law !![1, 0, 0, 0], ![0, 1, Real.pi, 0], 0, 1,
      stepInstage_ne_stepZOH⟩

/-- Witness for the hypothesis-bearing part of C5's amended theorem. -/
theorem control_recomputed_per_stage_witness :
    control_no upright = control_no upright ∧
      get_PendulumCartRates upright 0 control_no 1 1 1 (-10) =
        get_PendulumCartRates upright 0 control_no 1 1 1 (-10) :=
  ⟨rfl, control_recomputed_per_stage.1 upright 0 control_no control_no rfl⟩

/-- C5 (counterexample to the claim as stated): with the feedback law of
gain `(1, 0, 0, 0)`, initial state `(0, 1, π, 0)` and step `dt = 1`, the
step produced by the code (control re-evaluated inside the dynamics
function) differs from the zero-order-hold step, so the control is *not*
held constant across the internal stages of an integration step. -/
theorem zoh_claim_counterexample :
    stepInstage (control_law !![1, 0, 0, 0]) ![0, 1, Real.pi, 0] 0 1 ≠
      stepZOH (control_law !![1, 0, 0, 0]) ![0, 1, Real.pi, 0] 0 1 :=
  stepInstage_ne_stepZOH

/-! ## Claim C8: velocity-based vs momentum-based representations -/

/-- The mass matrix `M(x2)` of the cart-pendulum: the conjugate momenta are
`(p1, p2) = M(x2)·(v1, v2)`. -/
noncomputable def massMatrix (m1 m2 l x2 : ℝ) : Matrix (Fin 2) (Fin 2) ℝ :=
  !![m1 + m2, m2 * l * Real.cos x2;
     m2 * l * Real.cos x2, m2 * l ^ 2]

/-- The instantaneous (parameter- and angle-dependent) linear change of
representation: velocity state `(x1, v1, x2, v2)` to momentum state
`(x1, p1, x2, p2)` with `p = M(x2)·v`. -/
noncomputable def toMomentumState (m1 m2 l : ℝ) (x : State) : State :=
  ![x 0,
    (m1 + m2) * x 1 + m2 * l * Real.cos (x 2) * x 3,
    x 2,
    m2 * l * Real.cos (x 2) * x 1 + m2 * l ^ 2 * x 3]

/-- The pushforward of a velocity-state derivative `r` under
`toMomentumState` at the state `x` (chain rule: `ṗ = Ṁ·v + M·v̇`). -/
noncomputable def toMomentumRates (m1 m2 l : ℝ) (x r : State) : State :=
  ![r 0,
    (m1 + m2) * r 1 +
      m2 * l * (Real.cos (x 2) * r 3 - Real.sin (x 2) * x 3 * r 2),
    r 2,
    m2 * l * (Real.cos (x 2) * r 1 - Real.sin (x 2) * x 1 * r 2) +
      m2 * l ^ 2 * r 3]

lemma v1_of_p_momentum (m1 m2 l x2 v1 v2 : ℝ) (hm1 : 0 < m1) (hm2 : 0 < m2)
    (hl : l ≠ 0) :
    v1_of_p m1 m2 l x2 ((m1 + m2) * v1 + m2 * l * Real.cos x2 * v2)
      (m2 * l * Real.cos x2 * v1 + m2 * l ^ 2 * v2) = v1 := by
  have hD := (denom_pos m1 m2 x2 hm1 hm2).ne'
  unfold v1_of_p
  rw [div_eq_iff (by exact mul_ne_zero hl hD)]
  linear_combination (-l * m2 * v1) * Real.sin_sq_add_cos_sq x2

lemma v2_of_p_momentum (m1 m2 l x2 v1 v2 : ℝ) (hm1 : 0 < m1) (hm2 : 0 < m2)
    (hl : l ≠ 0) :
    v2_of_p m1 m2 l x2 ((m1 + m2) * v1 + m2 * l * Real.cos x2 * v2)
      (m2 * l * Real.cos x2 * v1 + m2 * l ^ 2 * v2) = v2 := by
  have hD := (denom_pos m1 m2 x2 hm1 hm2).ne'
  have hm2' : m2 ≠ 0 := hm2.ne'
  unfold v2_of_p
  rw [div_eq_iff (by positivity)]
  linear_combination (-m2 ^ 2 * l ^ 2 * v2) * Real.sin_sq_add_cos_sq x2

lemma p2d_closed_momentum (m1 m2 l g x2 v1 v2 : ℝ) (hm1 : 0 < m1)
    (hm2 : 0 < m2) (hl : l ≠ 0) :
    p2d_closed m1 m2 l g ((m1 + m2) * v1 + m2 * l * Real.cos x2 * v2) x2
        (m2 * l * Real.cos x2 * v1 + m2 * l ^ 2 * v2) =
      m2 * g * l * Real.sin x2 - m2 * l * Real.sin x2 * v1 * v2 := by
  have hD := (denom_pos m1 m2 x2 hm1 hm2).ne'
  have key : l * ((m1 + m2) * v1 + m2 * l * Real.cos x2 * v2) *
        (m2 * l * Real.cos x2 * v1 + m2 * l ^ 2 * v2) *
        (m1 + m2 * Real.sin x2 ^ 2) -
      (m2 * l ^ 2 * ((m1 + m2) * v1 + m2 * l * Real.cos x2 * v2) ^ 2 -
          2 * m2 * l * Real.cos x2 *
            ((m1 + m2) * v1 + m2 * l * Real.cos x2 * v2) *
            (m2 * l * Real.cos x2 * v1 + m2 * l ^ 2 * v2) +
          (m1 + m2) * (m2 * l * Real.cos x2 * v1 + m2 * l ^ 2 * v2) ^ 2) *
        Real.cos x2 =
      m2 * l ^ 3 * (m1 + m2 * Real.sin x2 ^ 2) ^ 2 * v1 * v2 := by
    linear_combination (l * m2 * ((m1 + m2) * m2 * l * Real.cos x2 * v1 ^ 2 +
        (2 * m2 ^ 2 * l ^ 2 * Real.cos x2 ^ 2 -
          m2 * l ^ 2 * (m1 + m2 * Real.sin x2 ^ 2)) * v1 * v2 +
        m2 ^ 2 * l ^ 3 * Real.cos x2 * v2 ^ 2)) * Real.sin_sq_add_cos_sq x2
  unfold p2d_closed
  rw [key]
  field_simp
  ring

/-- C8 (amended): at any instant the two state representations are related
by the parameter-dependent linear (mass-matrix) map `p = M(x2)·v`, and under
this map the Lagrangian and Hamiltonian dynamics functions define equivalent
state evolutions — *provided the control input is negated*: the Hamiltonian
variant implements `ṗ1 = -∂H/∂x1 - u`, so its control enters with the
opposite sign to the Lagrangian variant's generalized force `+u`.  In
particular the unforced (`u = 0`) systems are equivalent. -/
theorem hamiltonian_lagrangian_equivalence (m1 m2 l g : ℝ) (hm1 : 0 < m1)
    (hm2 : 0 < m2) (hl : 0 < l) :
    (∀ x : State,
        ![toMomentumState m1 m2 l x 1, toMomentumState m1 m2 l x 3] =
          (massMatrix m1 m2 l (x 2)).mulVec ![x 1, x 3]) ∧
      ∀ (x : State) (u t tH : ℝ),
        get_PendulumCartRates_Hamiltonian (toMomentumState m1 m2 l x) tH
            (fun _ => -u) m1 m2 l g =
          toMomentumRates m1 m2 l x
            (get_PendulumCartRates x t (fun _ => u) m1 m2 l g) := by
  constructor
  · intro x
    funext i
    fin_cases i <;>
      simp [toMomentumState, massMatrix, Matrix.mulVec, Matrix.dotProduct,
        Fin.sum_univ_succ, Matrix.vecHead, Matrix.vecTail]
  · intro x u t tH
    funext i
    fin_cases i
    · show x1d_exp m1 m2 l g
          ((m1 + m2) * x 1 + m2 * l * Real.cos (x 2) * x 3) (x 2)
          (m2 * l * Real.cos (x 2) * x 1 + m2 * l ^ 2 * x 3) = x 1
      rw [x1d_exp_eq _ _ _ _ _ _ _ hm1 hm2 hl.ne']
      exact v1_of_p_momentum m1 m2 l (x 2) (x 1) (x 3) hm1 hm2 hl.ne'
    · show p1d_exp m1 m2 l g (x 0)
          ((m1 + m2) * x 1 + m2 * l * Real.cos (x 2) * x 3) (x 2)
          (m2 * l * Real.cos (x 2) * x 1 + m2 * l ^ 2 * x 3) (-u) =
        (m1 + m2) * y1dd_function 0 0 (x 2) (x 3) 0 u m1 m2 l g +
          m2 * l * (Real.cos (x 2) *
              y2dd_function 0 0 (x 2) (x 3) 0 u m1 m2 l g -
            Real.sin (x 2) * x 3 * x 3)
      rw [p1d_exp_eq]
      linear_combination (-1 : ℝ) *
        DEexplicit_solves_EL1 (x 2) (x 3) u m1 m2 l g hm1 hm2.le hl.ne'
    · show x2d_exp m1 m2 l g
          ((m1 + m2) * x 1 + m2 * l * Real.cos (x 2) * x 3) (x 2)
          (m2 * l * Real.cos (x 2) * x 1 + m2 * l ^ 2 * x 3) = x 3
      rw [x2d_exp_eq _ _ _ _ _ _ _ hm1 hm2 hl.ne']
      exact v2_of_p_momentum m1 m2 l (x 2) (x 1) (x 3) hm1 hm2 hl.ne'
    · show p2d_exp m1 m2 l g
          ((m1 + m2) * x 1 + m2 * l * Real.cos (x 2) * x 3) (x 2)
          (m2 * l * Real.cos (x 2) * x 1 + m2 * l ^ 2 * x 3) =
        m2 * l * (Real.cos (x 2) *
            y1dd_function 0 0 (x 2) (x 3) 0 u m1 m2 l g -
          Real.sin (x 2) * x 1 * x 3) +
          m2 * l ^ 2 * y2dd_function 0 0 (x 2) (x 3) 0 u m1 m2 l g
      rw [p2d_exp_eq _ _ _ _ _ _ _ hm1 hm2 hl.ne',
        p2d_closed_momentum m1 m2 l g (x 2) (x 1) (x 3) hm1 hm2 hl.ne']
      linear_combination (-1 : ℝ) *
        DEexplicit_solves_EL2 (x 2) (x 3) u m1 m2 l g hm1 hm2.le hl.ne'

/-- Witness for C8's amended equivalence at the notebook parameters. -/
theorem hamiltonian_lagrangian_equivalence_witness :
    (0 : ℝ) < 1 ∧
      ((∀ x : State,
          ![toMomentumState 1 1 1 x 1, toMomentumState 1 1 1 x 3] =
            (massMatrix 1 1 1 (x 2)).mulVec ![x 1, x 3]) ∧
        ∀ (x : State) (u t tH : ℝ),
          get_PendulumCartRates_Hamiltonian (toMomentumState 1 1 1 x) tH
              (fun _ => -u) 1 1 1 (-10) =
            toMomentumRates 1 1 1 x
              (get_PendulumCartRates x t (fun _ => u) 1 1 1 (-10))) :=
  ⟨by norm_num,
    hamiltonian_lagrangian_equivalence 1 1 1 (-10) (by norm_num) (by norm_num)
      (by norm_num)⟩

lemma lagRates_upright_forced :
    get_PendulumCartRates ![0, 0, Real.pi, 0] 0 (fun _ => 1) 1 1 1 (-10) =
      ![0, 1, 0, 1] := by
  funext i
  fin_cases i <;>
    simp [get_PendulumCartRates, y1dd_function, y2dd_function, Real.sin_pi,
      Real.cos_pi]

/-- C8 (counterexample to the claim as stated): with the *same* control
input `u = 1` in both formulations (parameters `m1 = m2 = l = 1`,
`g = -10`, inverted state), the Hamiltonian dynamics at the mapped state do
NOT push forward the Lagrangian dynamics: the momentum rate is `-1` on the
Hamiltonian side but `+1` on the Lagrangian side. -/
theorem hamiltonian_same_control_counterexample :
    get_PendulumCartRates_Hamiltonian
        (toMomentumState 1 1 1 ![0, 0, Real.pi, 0]) 0 (fun _ => 1)
        1 1 1 (-10) ≠
      toMomentumRates 1 1 1 ![0, 0, Real.pi, 0]
        (get_PendulumCartRates ![0, 0, Real.pi, 0] 0 (fun _ => 1)
          1 1 1 (-10)) := by
  intro h
  have h1 := congrFun h 1
  rw [lagRates_upright_forced] at h1
  have hL : get_PendulumCartRates_Hamiltonian
      (toMomentumState 1 1 1 ![0, 0, Real.pi, 0]) 0 (fun _ => 1)
      1 1 1 (-10) 1 = -1 := by
    show p1d_exp 1 1 1 (-10) (toMomentumState 1 1 1 ![0, 0, Real.pi, 0] 0)
        (toMomentumState 1 1 1 ![0, 0, Real.pi, 0] 1)
        (toMomentumState 1 1 1 ![0, 0, Real.pi, 0] 2)
        (toMomentumState 1 1 1 ![0, 0, Real.pi, 0] 3) 1 = -1
    rw [p1d_exp_eq]
  rw [hL] at h1
  simp [toMomentumRates, Real.sin_pi, Real.cos_pi] at h1
  norm_num at h1

/-- Witness for C7 at the notebook grid `t0 = 0`, `tn = 10`, `dt = 0.001`:
the trajectory has exactly `⌈(10 - 0)/0.001⌉ = 10000` samples. -/
theorem trajectory_length_and_spacing_witness :
    (0 : ℚ) < 1 / 1000 ∧
      (odeintModel unforcedField upright (((0 : ℚ) : ℝ))
          (((1 / 1000 : ℚ) : ℝ)) (arangeLen 0 10 (1 / 1000))).length =
        10000 := by
  refine ⟨by norm_num, ?_⟩
  have h := (trajectory_length_and_spacing 0 10 (1 / 1000) (by norm_num)
    unforcedField upright).1
  rw [h]
  rw [show ⌈((10 : ℚ) - 0) / (1 / 1000)⌉ = (10000 : ℤ) by norm_num]
  rfl

/-! ## Claim C9: the position rates are the supplied velocity components -/

/-- C9: for every state, control law, time and parameters, the first and
third components of the derivative vector returned by
`get_PendulumCartRates` are exactly the second and fourth components of the
input state (no transformation is applied to the velocity channels). -/
theorem rates_position_components (X : State) (t : ℝ) (uf : State → ℝ)
    (m1 m2 l g : ℝ) :
    get_PendulumCartRates X t uf m1 m2 l g 0 = X 1 ∧
      get_PendulumCartRates X t uf m1 m2 l g 2 = X 3 := by
  constructor <;> simp [get_PendulumCartRates]

end CartPendulum
